import Mathlib

/-!
Shallow embedding, in Lean 4, of the `econ1` dashboard's data-handling code:
the relay function `getEconomicData` (server side), the client fetch
`fetchEconomicData`, the error formatter `getFriendlyErrorMessage`, the CSV
export `handleExportCSV`, the grounding-source extraction, the best-effort
JSON substring extraction, and the month-date sort.

JavaScript strings are modelled as `List Char` (`JStr`).  External runtime
primitives (`JSON.parse`, `new Date(...).getTime()`, the generative-model
transport) are modelled as explicit function parameters, so every theorem
quantifies over their behaviour.
-/

/-- Model of a JavaScript string: a list of characters. -/
abbrev JStr := List Char

/-- Conversion from a Lean string literal to the `JStr` model. -/
def js (s : String) : JStr := s.data

/-- Whitespace predicate used by the model of `String.prototype.trim`
(covers the ASCII whitespace actually occurring in the data paths). -/
def isWs (c : Char) : Bool := c == ' ' || c == '\n' || c == '\t' || c == '\r'

/-- Model of `String.prototype.trim`, left part: drop leading whitespace. -/
def trimL (s : JStr) : JStr := s.dropWhile isWs

/-- Model of `String.prototype.trim`, right part: drop trailing whitespace. -/
def trimR (s : JStr) : JStr := (s.reverse.dropWhile isWs).reverse

/-- Model of `String.prototype.trim`. -/
def trimStr (s : JStr) : JStr := trimR (trimL s)

/-- Model of `String.prototype.indexOf` for a single character, returning
`none` where JavaScript returns `-1`. -/
def idxOf? (c : Char) : JStr → Option Nat
  | [] => none
  | a :: as => if a = c then some 0 else (idxOf? c as).map (· + 1)

/-- Model of `String.prototype.lastIndexOf` for a single character, returning
`none` where JavaScript returns `-1`. -/
def lastIdxOf? (c : Char) (s : JStr) : Option Nat :=
  (idxOf? c s.reverse).map (fun i => s.length - 1 - i)

/-- Model of `substring(a, b)`: the characters at indices `a ≤ i < b`. -/
def subStr (s : JStr) (a b : Nat) : JStr := (s.drop a).take (b - a)

/-- Boolean test that `p` is a leading segment of `s`. -/
def isPrefL : JStr → JStr → Bool
  | [], _ => true
  | _ :: _, [] => false
  | a :: as, b :: bs => a == b && isPrefL as bs

/-- Boolean test that `p` occurs contiguously somewhere inside `s`; used to
model a fixed-pattern regular-expression search. -/
def containsSub (p : JStr) : JStr → Bool
  | [] => isPrefL p []
  | b :: bs => isPrefL p (b :: bs) || containsSub p bs

/-- Case normalisation used to model a case-insensitive regular expression. -/
def lowerStr (s : JStr) : JStr := s.map Char.toLower

/-- Splitting a string at every occurrence of the character `c`; inverse of
joining with `c` when no field contains `c`. -/
def splitOnChar (c : Char) : JStr → List JStr
  | [] => [[]]
  | a :: as =>
    if a = c then [] :: splitOnChar c as
    else
      match splitOnChar c as with
      | [] => [[a]]
      | g :: gs => (a :: g) :: gs

/-- Joining a list of fields with the single-character separator `c`. -/
def joinSep (c : Char) (parts : List JStr) : JStr := List.intercalate [c] parts

/-- Model of a parsed JSON value (`JSON.parse` output).  Numbers are modelled
as integers; none of the verified code paths inspects numeric values. -/
inductive JsonVal : Type where
  | null : JsonVal
  | bool (b : Bool) : JsonVal
  | num (n : Int) : JsonVal
  | str (s : JStr) : JsonVal
  | arr (xs : List JsonVal) : JsonVal
  | obj (fields : List (JStr × JsonVal)) : JsonVal

/-- Type of the model of the runtime's `JSON.parse`: either a parsed value or
a parser error message (the `SyntaxError`'s message). -/
abbrev JParse := JStr → Except JStr JsonVal

/-- Last-occurrence lookup in an object's field list, mirroring the fact that
`JSON.parse` keeps the last of duplicate keys. -/
def lookupLast : List (JStr × JsonVal) → JStr → Option JsonVal
  | [], _ => none
  | (k', v) :: rest, k =>
    match lookupLast rest k with
    | some r => some r
    | none => if k' = k then some v else none

/-- Model of JavaScript property access `v[k]`: `none` stands for
`undefined` (absent field, or access on a non-object). -/
def getField (v : JsonVal) (k : JStr) : Option JsonVal :=
  match v with
  | .obj fields => lookupLast fields k
  | _ => none

/-- JavaScript truthiness of a parsed JSON value. -/
def truthyJ : JsonVal → Bool
  | .null => false
  | .bool b => b
  | .num n => n != 0
  | .str s => !s.isEmpty
  | .arr _ => true
  | .obj _ => true

/-- JavaScript truthiness of a possibly-`undefined` value (`none` models
`undefined`). -/
def truthyO : Option JsonVal → Bool
  | none => false
  | some v => truthyJ v

/-- Model of `Array.isArray` applied to a possibly-`undefined` value. -/
def isArr : Option JsonVal → Bool
  | some (.arr _) => true
  | _ => false

mutual
/-- Model of JavaScript's string coercion `String(v)` of a parsed JSON value
(template-literal interpolation). -/
def jshow : JsonVal → JStr
  | .null => js "null"
  | .bool true => js "true"
  | .bool false => js "false"
  | .num n => (toString n).data
  | .str s => s
  | .arr xs => List.intercalate [','] (jshowElems xs)
  | .obj _ => js "[object Object]"

/-- Elementwise rendering used by `Array.prototype.join`: `null` elements
render as the empty string. -/
def jshowElems : List JsonVal → List JStr
  | [] => []
  | .null :: rest => [] :: jshowElems rest
  | v :: rest => jshow v :: jshowElems rest
end

/-- Model of an environment variable / optional string-valued input, with
JavaScript truthiness (`undefined` and the empty string are falsy). -/
def truthyS : Option JStr → Bool
  | none => false
  | some s => !s.isEmpty

/-- The closed set of indicator identifiers (`IndicatorKey` in `types.ts`). -/
inductive IndicatorKey : Type where
  | bankAverageLendingRate
  | gdpGrowth
  | inflationRate
  | pesoDollarRate
  | underemploymentRate
  | unemploymentRate
  | wtiCrudeOil
  | overnightRrpRate
  | overnightDepositFacilityRate
  | overnightLendingFacilityRate
deriving DecidableEq

/-- Display metadata of one indicator (`IndicatorMetadata` in `types.ts`). -/
structure IndicatorMetadata where
  name : String
  color : String
  unit : String
  threshold : Option Int := none

/-- The static catalog `INDICATORS_MAP` from `types.ts`. -/
def INDICATORS_MAP : IndicatorKey → IndicatorMetadata
  | .bankAverageLendingRate => { name := "Bank Average Lending Rate", color := "#eab308", unit := "%" }
  | .gdpGrowth => { name := "GDP Growth", color := "#22c55e", unit := "%", threshold := some 6 }
  | .inflationRate => { name := "Inflation Rate", color := "#ef4444", unit := "%", threshold := some 3 }
  | .pesoDollarRate => { name := "Peso-Dollar (End of Period)", color := "#f97316", unit := "₱" }
  | .underemploymentRate => { name := "Underemployment Rate", color := "#0ea5e9", unit := "%", threshold := some 15 }
  | .unemploymentRate => { name := "Unemployment Rate", color := "#3b82f6", unit := "%", threshold := some 5 }
  | .wtiCrudeOil => { name := "WTI Crude Oil", color := "#a855f7", unit := "$" }
  | .overnightRrpRate => { name := "Overnight RRP Rate", color := "#d946ef", unit := "%" }
  | .overnightDepositFacilityRate => { name := "Overnight Deposit Facility Rate", color := "#ec4899", unit := "%" }
  | .overnightLendingFacilityRate => { name := "Overnight Lending Facility Rate", color := "#64748b", unit := "%" }

/-- The literal property name of an indicator key, as used in prompts. -/
def keyStr : IndicatorKey → String
  | .bankAverageLendingRate => "bankAverageLendingRate"
  | .gdpGrowth => "gdpGrowth"
  | .inflationRate => "inflationRate"
  | .pesoDollarRate => "pesoDollarRate"
  | .underemploymentRate => "underemploymentRate"
  | .unemploymentRate => "unemploymentRate"
  | .wtiCrudeOil => "wtiCrudeOil"
  | .overnightRrpRate => "overnightRrpRate"
  | .overnightDepositFacilityRate => "overnightDepositFacilityRate"
  | .overnightLendingFacilityRate => "overnightLendingFacilityRate"

/-- A source citation (`Source` in `types.ts`). -/
structure Source where
  title : JStr
  uri : JStr
deriving DecidableEq

instance : Inhabited Source := ⟨⟨[], []⟩⟩

instance : Nonempty Source := ⟨⟨[], []⟩⟩

instance : Nonempty (JStr × Source) := ⟨([], ⟨[], []⟩)⟩

/-- One monthly record of the loaded data set (`EconomicIndicator`):
a month label plus a possibly-absent value per indicator key.  The value
type is abstract (`ν`); absent/null values are `none`. -/
structure DataRow (ν : Type) where
  month : JStr
  vals : IndicatorKey → Option ν

/-- The unit of exchange between relay and client (`FetchResult`): the
records of the parsed `data` array (kept as raw JSON values, as the relay
returns them unvalidated) plus the deduplicated sources. -/
structure FetchResult where
  data : List JsonVal
  sources : List Source

/-- The `web` part of one grounding chunk (title/uri may be absent). -/
structure WebInfo where
  title : Option JStr
  uri : Option JStr

/-- One grounding chunk of the model response's metadata. -/
structure GroundChunk where
  web : Option WebInfo

/-- Grounding metadata of one response candidate. -/
structure GroundingMetadata where
  groundingChunks : Option (List GroundChunk)

/-- One response candidate of the generative model. -/
structure Candidate where
  groundingMetadata : Option GroundingMetadata

/-- The relevant parts of a generative-model response: candidate list (for
grounding metadata) and the reply text. -/
structure ModelResponse where
  candidates : Option (List Candidate)
  text : JStr

/-- Model of `Map.prototype.set` on an association list: an existing key is
updated in place (insertion order preserved), a new key is appended. -/
def mapSet (m : List (JStr × Source)) (k : JStr) (v : Source) : List (JStr × Source) :=
  if m.any (fun p => decide (p.1 = k)) then
    m.map (fun p => if p.1 = k then (k, v) else p)
  else m ++ [(k, v)]

/-- One step of the relay's grounding-source loop: a chunk whose `web` part
has a truthy `uri` and a truthy `title` is written into the `Map` keyed by
its uri; every other chunk is skipped. -/
def insertChunk (m : List (JStr × Source)) (c : GroundChunk) : List (JStr × Source) :=
  match c.web with
  | some w =>
    if truthyS w.uri && truthyS w.title then
      mapSet m (w.uri.getD []) { title := w.title.getD [], uri := w.uri.getD [] }
    else m
  | none => m

/-- The relay's grounding-source extraction: fold all chunks through the
uri-keyed `Map` and return the map's values in order. -/
def extractSources (chunks : List GroundChunk) : List Source :=
  (chunks.foldl insertChunk []).map (fun p => p.2)

/-- Model of the optional chain
`response.candidates?.[0]?.groundingMetadata?.groundingChunks`. -/
def groundingChunksOf (r : ModelResponse) : Option (List GroundChunk) :=
  match r.candidates with
  | none => none
  | some cs =>
    match cs.head? with
    | none => none
    | some c =>
      match c.groundingMetadata with
      | none => none
      | some g => g.groundingChunks

/-- The `sources` list the relay computes for a model response: the
deduplicated extraction when grounding chunks are present, else empty. -/
def responseSources (r : ModelResponse) : List Source :=
  match groundingChunksOf r with
  | none => []
  | some chunks => extractSources chunks

/-- The relay's best-effort JSON extraction on the raw reply text: trim, and
when the first opening brace sits strictly before the last closing brace,
keep the trimmed substring between them (inclusive), else keep the trimmed
text. -/
def extractJson (s : JStr) : JStr :=
  match idxOf? '\x7b' (trimStr s), lastIdxOf? '\x7d' (trimStr s) with
  | some i, some j =>
    if i < j then trimStr (subStr (trimStr s) i (j + 1)) else trimStr s
  | some _, none => trimStr s
  | none, _ => trimStr s

/-- One line of the prompt's indicator list. -/
def indicatorListLine (k : IndicatorKey) : JStr :=
  js "- " ++ js (INDICATORS_MAP k).name ++ js " (key: \"" ++ js (keyStr k) ++ js "\")"

/-- One example field of the prompt's example JSON. -/
def exampleField (k : IndicatorKey) : JStr :=
  js "\"" ++ js (keyStr k) ++ js "\": 12.3"

/-- The relay's dynamic prompt text (`createDynamicPrompt`). -/
def createDynamicPrompt (indicators : List IndicatorKey) : JStr :=
  let indicatorList := joinSep '\n' (indicators.map indicatorListLine)
  let exampleFields := List.intercalate (js ",\n    ") (indicators.map exampleField)
  js "\nYou are a financial data analyst API. Your task is to use Google Search to find the most recent 12 months of economic data for the Philippines for the following indicators:\n"
    ++ indicatorList
    ++ js "\n\n**RESPONSE FORMAT INSTRUCTIONS:**\n- Your entire response **MUST** be a single, raw, valid JSON object.\n- Do **NOT** wrap the JSON in markdown backticks (```) or any other text.\n- The JSON object must have one root key: \"data\".\n- The \"data\" value must be an array of objects, one for each month.\n- Each object in the array must have a \"month\" key in \"YYYY-MM\" format and keys for the requested indicators.\n- Use the provided keys (e.g., \"gdpGrowth\") in the output.\n- If data for a specific indicator in a specific month is not available, omit the key or set its value to null.\n\n**EXAMPLE RESPONSE STRUCTURE:**\n\x7b\n  \"data\": [\n    \x7b\n      \"month\": \"2023-07\",\n      "
    ++ exampleFields
    ++ js "\n    \x7d,\n    \x7b\n      \"month\": \"2023-08\",\n      "
    ++ exampleFields
    ++ js "\n    \x7d\n  ]\n\x7d\n"

/-- The fixed server-side configuration-error message. -/
def configErrMsg : JStr := js "API_KEY environment variable not set on the server."

/-- The relay's parse-failure wrapper message. -/
def parseFailMsg (m : JStr) : JStr :=
  js "Failed to parse JSON from the AI's response. Details: " ++ m

/-- The relay's message for a parsed reply without an array at `data`. -/
def badFormatMsg : JStr := js "Parsed data from Gemini is not in the expected format."

/-- The elements of a value that is an array, else the empty list. -/
def arrOf : Option JsonVal → List JsonVal
  | some (.arr xs) => xs
  | _ => []

/-- Shallow embedding of the relay's `getEconomicData` (the dynamic-prompt
variant of `api/economic-data.ts`).  `jparse` models the runtime's
`JSON.parse`, `apiKey` the `API_KEY` environment variable, `model` the
outbound `generateContent` transport, `indicators` the request body's list
(`none` models an absent list).  The second component is the trace of
outbound model calls (each entry the prompt sent). -/
def getEconomicData (jparse : JParse) (apiKey : Option JStr)
    (model : JStr → ModelResponse) (indicators : Option (List IndicatorKey)) :
    Except JStr FetchResult × List JStr :=
  if !truthyS apiKey then (.error configErrMsg, [])
  else
    match indicators with
    | none => (.ok { data := [], sources := [] }, [])
    | some [] => (.ok { data := [], sources := [] }, [])
    | some inds =>
      let prompt := createDynamicPrompt inds
      let response := model prompt
      let webSources := responseSources response
      let jsonText := extractJson response.text
      match jparse jsonText with
      | .error em => (.error (parseFailMsg em), [prompt])
      | .ok parsedResult =>
        if truthyJ parsedResult && isArr (getField parsedResult (js "data")) then
          (.ok { data := arrOf (getField parsedResult (js "data")), sources := webSources }, [prompt])
        else (.error (parseFailMsg badFormatMsg), [prompt])

/-- The outcome of the client's `fetch` call to the relay endpoint: either a
rejected promise (a `TypeError`, the network-failure case) or a settled
response with its `ok` flag, status, status text and raw body text. -/
inductive Transport : Type where
  | typeError (msg : JStr)
  | resp (ok : Bool) (status : Nat) (statusText : JStr) (body : JStr)

/-- Label of the `throw` site that produced a client-side fetch failure; the
internal classification of the failure cause. -/
inductive FetchCause : Type where
  | connectivity
  | serverReported
  | malformed
  | bodyParse
deriving DecidableEq

/-- The client's fixed connectivity-failure message. -/
def connectivityMsg : JStr :=
  js "Failed to connect to the backend API. This is expected in this environment. In a real deployment, it would indicate a server issue."

/-- The client's fixed malformed-payload message. -/
def malformedMsg : JStr := js "The data format from the server is incorrect."

/-- The leading part of the client's non-2xx error message. -/
def serverMsgBase (status : Nat) (statusText : JStr) : JStr :=
  js "Server responded with " ++ (toString status).data ++ js ": " ++ statusText ++ js "."

/-- The non-2xx error message the client builds: the status line, extended
with the error body's `message` field when the body is JSON with a truthy
`message`, or with (at most 100 characters of) the raw body text when the
body is not JSON and non-empty. -/
def serverMsg (jparse : JParse) (status : Nat) (statusText body : JStr) : JStr :=
  match jparse body with
  | .ok errorJson =>
    match getField errorJson (js "message") with
    | some v =>
      if truthyJ v then serverMsgBase status statusText ++ js " Details: " ++ jshow v
      else serverMsgBase status statusText
    | none => serverMsgBase status statusText
  | .error _ =>
    if !body.isEmpty then serverMsgBase status statusText ++ js " Response: " ++ body.take 100
    else serverMsgBase status statusText

/-- Shallow embedding of the client's `fetchEconomicData`
(`services/geminiService.ts`): classify the transport outcome, validate a
2xx body (truthy, array-typed `data`, array-typed `sources`), and surface
every failure as a cause-labelled message string. -/
def fetchEconomicData (jparse : JParse) (t : Transport) : Except (FetchCause × JStr) JsonVal :=
  match t with
  | .typeError _ => .error (.connectivity, connectivityMsg)
  | .resp ok status statusText body =>
    if ok then
      match jparse body with
      | .error em => .error (.bodyParse, em)
      | .ok result =>
        if truthyJ result && isArr (getField result (js "data")) && isArr (getField result (js "sources")) then
          .ok result
        else .error (.malformed, malformedMsg)
    else .error (.serverReported, serverMsg jparse status statusText body)

/-- The record produced by the UI error formatter. -/
structure FriendlyError where
  title : JStr
  message : JStr
  isHtml : Bool
deriving DecidableEq

/-- The formatter's output for a null or empty error string. -/
def unknownFriendly : FriendlyError :=
  { title := js "An Unknown Error Occurred",
    message := js "An unexpected error occurred. Please try again.",
    isHtml := false }

/-- The fixed configuration-error marker the formatter pattern-matches on. -/
def configMarker : JStr := js "API_KEY environment variable not set"

/-- Case-insensitive substring test for the configuration-error marker
(model of the regular expression `API_KEY environment variable not set`
with the ignore-case flag). -/
def markerTest (e : JStr) : Bool := containsSub (lowerStr configMarker) (lowerStr e)

/-- The formatter's setup-instructions output for a configuration error. -/
def configFriendly : FriendlyError :=
  { title := js "Configuration Error",
    message := js "The <code>API_KEY</code> is missing on the server. If you are the application owner, please go to your deployment platform (e.g., Vercel), add an Environment Variable named <code>API_KEY</code> with your Gemini API key, and then redeploy the application.",
    isHtml := true }

/-- Model of the greedy dot-all regular-expression match on a brace-delimited
region: the substring from the first opening brace that precedes the last
closing brace, through that closing brace.  `none` when no such region
exists. -/
def braceMatch (s : JStr) : Option JStr :=
  match lastIdxOf? '\x7d' s with
  | none => none
  | some j =>
    match idxOf? '\x7b' (s.take j) with
    | none => none
    | some i => some (subStr s i (j + 1))

/-- The field chain `errorObj?.error?.message || errorObj?.details ||
errorObj?.message`: the first truthy value, else `none`. -/
def pickField (v : JsonVal) : Option JsonVal :=
  if truthyO ((getField v (js "error")).bind fun e => getField e (js "message")) then
    (getField v (js "error")).bind fun e => getField e (js "message")
  else if truthyO (getField v (js "details")) then getField v (js "details")
  else if truthyO (getField v (js "message")) then getField v (js "message")
  else none

/-- The formatter's attempt to pull a display message out of a JSON object
embedded in the raw error string: brace-region match, parse, field chain,
and the value must be a (truthy, hence non-empty) string. -/
def embeddedMessage (jparse : JParse) (e : JStr) : Option JStr :=
  match braceMatch e with
  | none => none
  | some mstr =>
    match jparse mstr with
    | .error _ => none
    | .ok errorObj =>
      match pickField errorObj with
      | some (.str s) => some s
      | _ => none

/-- Shallow embedding of the UI error formatter `getFriendlyErrorMessage`
(App variant with the friendly-error helper). -/
def getFriendlyErrorMessage (jparse : JParse) (error : Option JStr) : FriendlyError :=
  match error with
  | none => unknownFriendly
  | some e =>
    if e.isEmpty then unknownFriendly
    else if markerTest e then configFriendly
    else
      match embeddedMessage jparse e with
      | some m => { title := js "Error Fetching Data", message := m, isHtml := false }
      | none => { title := js "Error Fetching Data", message := e, isHtml := false }

/-- CSV field quoting used by the export (`"..."`). -/
def quoteF (s : JStr) : JStr := '"' :: (s ++ ['"'])

/-- The CSV header row built by `handleExportCSV`: `Month` followed by the
selected indicators' quoted display names, in selection order. -/
def csvHeader (selected : List IndicatorKey) : JStr :=
  joinSep ',' (js "Month" :: selected.map (fun k => quoteF (js (INDICATORS_MAP k).name)))

/-- One CSV data row built by `handleExportCSV`: the quoted month followed
by, per selected indicator, the rendered value or the empty string when the
value is null/absent (`row[key] ?? ''`).  `render` models the JavaScript
number-to-string coercion performed by `join`. -/
def csvRow {ν : Type} (render : ν → JStr) (selected : List IndicatorKey) (row : DataRow ν) : JStr :=
  joinSep ',' (quoteF row.month ::
    selected.map (fun k => match row.vals k with | some v => render v | none => []))

/-- The full CSV text built by `handleExportCSV`: header and data rows
joined with newlines. -/
def csvContent {ν : Type} (render : ν → JStr) (selected : List IndicatorKey)
    (rows : List (DataRow ν)) : JStr :=
  joinSep '\n' (csvHeader selected :: rows.map (csvRow render selected))

/-- The month-date comparator's ordering: `dateOf` models
`new Date(month).getTime()` as an integer timestamp. -/
def sortData {ν : Type} (dateOf : JStr → Int) (rows : List (DataRow ν)) : List (DataRow ν) :=
  List.insertionSort (fun a b => dateOf a.month ≤ dateOf b.month) rows

/-! Basic facts about the string model. -/

theorem dw_head_false {p : Char → Bool} {s : JStr} {a : Char}
    (h : (s.dropWhile p).head? = some a) : p a = false := by
  induction s with
  | nil => simp [List.dropWhile] at h
  | cons x xs ih =>
    rw [List.dropWhile_cons] at h
    by_cases hx : p x = true
    · rw [if_pos hx] at h
      exact ih h
    · rw [if_neg hx] at h
      have hxa : x = a := by simpa using h
      subst hxa
      simpa using hx

theorem dw_fix_of_head {p : Char → Bool} {s : JStr} {a : Char}
    (h : s.head? = some a) (ha : p a = false) : s.dropWhile p = s := by
  cases s with
  | nil => rfl
  | cons x xs =>
    simp at h
    rw [List.dropWhile_cons, h] at *
    simp [ha]

theorem dw_idem (p : Char → Bool) (s : JStr) :
    (s.dropWhile p).dropWhile p = s.dropWhile p := by
  cases hh : (s.dropWhile p).head? with
  | none =>
    have : s.dropWhile p = [] := by
      cases h : s.dropWhile p with
      | nil => rfl
      | cons x xs => rw [h] at hh; simp at hh
    rw [this]; rfl
  | some a => exact dw_fix_of_head hh (dw_head_false hh)

theorem trimL_head {s : JStr} {a : Char} (h : (trimL s).head? = some a) :
    isWs a = false := dw_head_false h

theorem trimR_decomp (s : JStr) :
    s = trimR s ++ (s.reverse.takeWhile isWs).reverse := by
  unfold trimR
  have h := List.takeWhile_append_dropWhile isWs s.reverse
  calc s = s.reverse.reverse := (List.reverse_reverse s).symm
    _ = (List.takeWhile isWs s.reverse ++ List.dropWhile isWs s.reverse).reverse := by rw [h]
    _ = _ := by rw [List.reverse_append]

theorem trimR_head {s : JStr} {a : Char} (hs : s.head? = some a)
    (h : trimR s ≠ []) : (trimR s).head? = some a := by
  have hd := trimR_decomp s
  cases ht : trimR s with
  | nil => exact absurd ht h
  | cons x xs =>
    rw [ht] at hd
    rw [hd] at hs
    simpa using hs

theorem trimL_fix {s : JStr} (h : ∀ a, s.head? = some a → isWs a = false) :
    trimL s = s := by
  cases hs : s.head? with
  | none =>
    have : s = [] := by cases s with
      | nil => rfl
      | cons x xs => simp at hs
    rw [this]; rfl
  | some a => exact dw_fix_of_head hs (h a hs)

theorem trimR_fix {s : JStr} (h : ∀ a, s.getLast? = some a → isWs a = false) :
    trimR s = s := by
  unfold trimR
  have : s.reverse.dropWhile isWs = s.reverse := by
    apply trimL_fix
    intro a ha
    rw [List.head?_reverse] at ha
    exact h a ha
  rw [this, List.reverse_reverse]

theorem trim_fix_of_ends {s : JStr} {a b : Char}
    (h1 : s.head? = some a) (h2 : isWs a = false)
    (h3 : s.getLast? = some b) (h4 : isWs b = false) : trimStr s = s := by
  unfold trimStr
  rw [show trimL s = s from dw_fix_of_head h1 h2]
  exact trimR_fix (fun c hc => by rw [h3] at hc; cases hc; exact h4)

theorem trimL_trimR_comm_fix {u : JStr} (hu : trimL u = u) :
    trimL (trimR u) = trimR u := by
  apply trimL_fix
  intro a ha
  have hne : trimR u ≠ [] := by intro hc; rw [hc] at ha; simp at ha
  cases hh : u.head? with
  | none =>
    have hnil : u = [] := by
      cases u with
      | nil => rfl
      | cons y ys => simp at hh
    subst hnil
    simp [trimR] at hne
  | some b =>
    have hb : (trimR u).head? = some b := trimR_head hh hne
    rw [ha] at hb
    injection hb with hba
    subst hba
    have hhead : (trimL u).head? = some a := by rw [hu]; exact hh
    exact dw_head_false hhead

theorem trimR_idem (s : JStr) : trimR (trimR s) = trimR s := by
  unfold trimR
  rw [List.reverse_reverse]
  rw [dw_idem]

theorem trimStr_idem (s : JStr) : trimStr (trimStr s) = trimStr s := by
  unfold trimStr
  have h1 : trimL (trimL s) = trimL s := dw_idem isWs s
  rw [trimL_trimR_comm_fix h1, trimR_idem]

theorem idxOf?_lt {c : Char} {s : JStr} {i : Nat} (h : idxOf? c s = some i) :
    i < s.length := by
  induction s generalizing i with
  | nil => simp [idxOf?] at h
  | cons a as ih =>
    rw [idxOf?] at h
    by_cases ha : a = c
    · rw [if_pos ha] at h
      injection h with h'
      subst h'
      simp
    · rw [if_neg ha] at h
      cases hrec : idxOf? c as with
      | none => rw [hrec] at h; simp at h
      | some k =>
        rw [hrec] at h
        simp at h
        have := ih hrec
        simp
        omega

theorem idxOf?_get {c : Char} {s : JStr} {i : Nat} (h : idxOf? c s = some i) :
    s[i]? = some c := by
  induction s generalizing i with
  | nil => simp [idxOf?] at h
  | cons a as ih =>
    rw [idxOf?] at h
    by_cases ha : a = c
    · rw [if_pos ha] at h
      injection h with h'
      subst h'
      simpa using ha
    · rw [if_neg ha] at h
      cases hrec : idxOf? c as with
      | none => rw [hrec] at h; simp at h
      | some k =>
        rw [hrec] at h
        simp at h
        subst h
        simpa using ih hrec

theorem idxOf?_head {c : Char} {s : JStr} (h : s.head? = some c) :
    idxOf? c s = some 0 := by
  cases s with
  | nil => simp at h
  | cons a as =>
    have : a = c := by simpa using h
    rw [idxOf?, if_pos this]

theorem lastIdxOf?_spec {c : Char} {s : JStr} {j : Nat} (h : lastIdxOf? c s = some j) :
    j < s.length ∧ s[j]? = some c := by
  unfold lastIdxOf? at h
  cases hr : idxOf? c s.reverse with
  | none => rw [hr] at h; simp at h
  | some i =>
    rw [hr] at h
    simp at h
    have hlt : i < s.reverse.length := idxOf?_lt hr
    have hget : s.reverse[i]? = some c := idxOf?_get hr
    rw [List.length_reverse] at hlt
    rw [List.getElem?_reverse (by simpa using hlt)] at hget
    subst h
    exact ⟨by omega, hget⟩

theorem lastIdxOf?_getLast {c : Char} {s : JStr} (h : s.getLast? = some c) :
    lastIdxOf? c s = some (s.length - 1) := by
  rw [← List.head?_reverse] at h
  unfold lastIdxOf?
  rw [idxOf?_head h]
  simp

theorem subStr_head {c : Char} {s : JStr} {i j : Nat} (hij : i < j)
    (hget : s[i]? = some c) : (subStr s i (j + 1)).head? = some c := by
  unfold subStr
  rw [List.head?_take, if_neg (by omega)]
  rw [List.head?_drop]
  simpa using hget

theorem subStr_getLast {c : Char} {s : JStr} {i j : Nat} (hij : i < j)
    (hjlen : j < s.length) (hget : s[j]? = some c) :
    (subStr s i (j + 1)).getLast? = some c := by
  unfold subStr
  rw [List.getLast?_eq_getElem?]
  have hlen : ((s.drop i).take (j + 1 - i)).length = j + 1 - i := by
    rw [List.length_take, List.length_drop]
    omega
  rw [hlen]
  have hidx : j + 1 - i - 1 = j - i := by omega
  rw [hidx]
  rw [List.getElem?_take, if_pos (by omega)]
  rw [List.getElem?_drop]
  have : i + (j - i) = j := by omega
  rw [this]
  exact hget

theorem subStr_len {s : JStr} {i j : Nat} (hjlen : j < s.length) :
    (subStr s i (j + 1)).length = j + 1 - i := by
  unfold subStr
  rw [List.length_take, List.length_drop]
  omega

theorem ej_branch_none1 {s : JStr} (h : idxOf? '\x7b' (trimStr s) = none) :
    extractJson s = trimStr s := by
  unfold extractJson
  rw [h]

theorem ej_branch_none2 {s : JStr} {i : Nat}
    (h1 : idxOf? '\x7b' (trimStr s) = some i)
    (h2 : lastIdxOf? '\x7d' (trimStr s) = none) :
    extractJson s = trimStr s := by
  unfold extractJson
  rw [h1, h2]

theorem ej_branch_nlt {s : JStr} {i j : Nat}
    (h1 : idxOf? '\x7b' (trimStr s) = some i)
    (h2 : lastIdxOf? '\x7d' (trimStr s) = some j) (h3 : ¬ i < j) :
    extractJson s = trimStr s := by
  unfold extractJson
  rw [h1, h2]
  simp [h3]

theorem ej_branch_lt {s : JStr} {i j : Nat}
    (h1 : idxOf? '\x7b' (trimStr s) = some i)
    (h2 : lastIdxOf? '\x7d' (trimStr s) = some j) (h3 : i < j) :
    extractJson s = trimStr (subStr (trimStr s) i (j + 1)) := by
  unfold extractJson
  rw [h1, h2]
  simp [h3]

theorem extractJson_fix {r : JStr} (h1 : r.head? = some '\x7b')
    (h2 : r.getLast? = some '\x7d') (hlen : 2 ≤ r.length) :
    extractJson r = r := by
  have ht : trimStr r = r := trim_fix_of_ends h1 (by decide) h2 (by decide)
  have hi : idxOf? '\x7b' (trimStr r) = some 0 := by rw [ht]; exact idxOf?_head h1
  have hj : lastIdxOf? '\x7d' (trimStr r) = some (r.length - 1) := by
    rw [ht]; exact lastIdxOf?_getLast h2
  have h3 : 0 < r.length - 1 := by omega
  rw [ej_branch_lt hi hj h3, ht]
  have hsub : subStr r 0 (r.length - 1 + 1) = r := by
    unfold subStr
    have : r.length - 1 + 1 = r.length := by omega
    rw [this]
    simp
  rw [hsub]
  exact trim_fix_of_ends h1 (by decide) h2 (by decide)

/-- Claim C9: the relay's best-effort JSON extraction step (`extractJson`,
the transformation of `api/economic-data.ts` lines 324-331: trim the text;
if the index of the first opening brace is not `-1` and the index of the
last closing brace is greater, take the substring from that opening brace
through that closing brace and trim it, otherwise keep the trimmed text)
is idempotent: for every input string, applying it twice yields the same
string as applying it once.  The second conjunct exhibits the non-trivial
branch on a concrete noisy reply: one application already reaches the
fixed point. -/
theorem C9_extraction_idempotent (s : JStr) :
    extractJson (extractJson s) = extractJson s
    ∧ extractJson (js "reply: \x7b\"data\":[]\x7d done") = js "\x7b\"data\":[]\x7d"
    ∧ extractJson (extractJson (js "reply: \x7b\"data\":[]\x7d done"))
        = extractJson (js "reply: \x7b\"data\":[]\x7d done") := by
  refine ⟨?_, by decide, by decide⟩
  cases hi : idxOf? '\x7b' (trimStr s) with
  | none =>
    rw [ej_branch_none1 hi]
    have ht : trimStr (trimStr s) = trimStr s := trimStr_idem s
    have hi' : idxOf? '\x7b' (trimStr (trimStr s)) = none := by rw [ht]; exact hi
    rw [ej_branch_none1 hi', ht]
  | some i =>
    cases hj : lastIdxOf? '\x7d' (trimStr s) with
    | none =>
      rw [ej_branch_none2 hi hj]
      have ht : trimStr (trimStr s) = trimStr s := trimStr_idem s
      have hi' : idxOf? '\x7b' (trimStr (trimStr s)) = some i := by rw [ht]; exact hi
      have hj' : lastIdxOf? '\x7d' (trimStr (trimStr s)) = none := by rw [ht]; exact hj
      rw [ej_branch_none2 hi' hj', ht]
    | some j =>
      by_cases hij : i < j
      · rw [ej_branch_lt hi hj hij]
        have hjs := lastIdxOf?_spec hj
        have hgi : (trimStr s)[i]? = some '\x7b' := idxOf?_get hi
        have hh : (subStr (trimStr s) i (j + 1)).head? = some '\x7b' :=
          subStr_head hij hgi
        have hl : (subStr (trimStr s) i (j + 1)).getLast? = some '\x7d' :=
          subStr_getLast hij hjs.1 hjs.2
        have hlen : 2 ≤ (subStr (trimStr s) i (j + 1)).length := by
          rw [subStr_len hjs.1]; omega
        have htf : trimStr (subStr (trimStr s) i (j + 1)) = subStr (trimStr s) i (j + 1) :=
          trim_fix_of_ends hh (by decide) hl (by decide)
        rw [htf]
        exact extractJson_fix hh hl hlen
      · rw [ej_branch_nlt hi hj hij]
        have ht : trimStr (trimStr s) = trimStr s := trimStr_idem s
        have hi' : idxOf? '\x7b' (trimStr (trimStr s)) = some i := by rw [ht]; exact hi
        have hj' : lastIdxOf? '\x7d' (trimStr (trimStr s)) = some j := by rw [ht]; exact hj
        rw [ej_branch_nlt hi' hj' hij, ht]

/-- Escaping of one character inside a JSON string literal, mirroring
`JSON.stringify`. -/
def escapeChar (c : Char) : JStr :=
  if c = '"' then ['\\', '"']
  else if c = '\\' then ['\\', '\\']
  else if c = '\n' then ['\\', 'n']
  else if c = '\r' then ['\\', 'r']
  else if c = '\t' then ['\\', 't']
  else [c]

/-- Escaping of a JSON string literal's body. -/
def escapeJson (s : JStr) : JStr := (s.map escapeChar).flatten

mutual
/-- Model of `JSON.stringify` on the JSON value model: the clean, unwrapped
serialization of a value. -/
def serializeJson : JsonVal → JStr
  | .null => js "null"
  | .bool true => js "true"
  | .bool false => js "false"
  | .num n => (toString n).data
  | .str s => '"' :: (escapeJson s ++ ['"'])
  | .arr xs => '[' :: (List.intercalate [','] (serializeArr xs) ++ [']'])
  | .obj fs => '\x7b' :: (List.intercalate [','] (serializeObj fs) ++ ['\x7d'])

/-- Serializations of the elements of an array value. -/
def serializeArr : List JsonVal → List JStr
  | [] => []
  | v :: rest => serializeJson v :: serializeArr rest

/-- Serializations of the fields of an object value. -/
def serializeObj : List (JStr × JsonVal) → List JStr
  | [] => []
  | (k, v) :: rest =>
    ('"' :: (escapeJson k ++ ('"' :: ':' :: serializeJson v))) :: serializeObj rest
end

theorem ser_obj_head (fs : List (JStr × JsonVal)) :
    (serializeJson (.obj fs)).head? = some '\x7b' := by
  rw [serializeJson]
  rfl

theorem ser_obj_getLast (fs : List (JStr × JsonVal)) :
    (serializeJson (.obj fs)).getLast? = some '\x7d' := by
  rw [serializeJson]
  rw [← List.cons_append]
  exact List.getLast?_concat _

theorem ser_obj_len (fs : List (JStr × JsonVal)) :
    2 ≤ (serializeJson (.obj fs)).length := by
  rw [serializeJson]
  simp

theorem dw_append {p : Char → Bool} (a : JStr) {b : JStr}
    (hb : b.dropWhile p = b) : (a ++ b).dropWhile p = a.dropWhile p ++ b := by
  induction a with
  | nil => simpa using hb
  | cons x xs ih =>
    rw [List.cons_append, List.dropWhile_cons, List.dropWhile_cons]
    by_cases hx : p x = true
    · rw [if_pos hx, if_pos hx]
      exact ih
    · rw [if_neg hx, if_neg hx, List.cons_append]

theorem trimR_append {x : JStr} (y : JStr) {c : Char}
    (hc : x.getLast? = some c) (hw : isWs c = false) :
    trimR (x ++ y) = x ++ trimR y := by
  unfold trimR
  rw [List.reverse_append]
  have hx : x.reverse.dropWhile isWs = x.reverse :=
    dw_fix_of_head (by rw [List.head?_reverse]; exact hc) hw
  rw [dw_append y.reverse hx, List.reverse_append, List.reverse_reverse]

theorem idxOf?_append_not_mem {c : Char} {a : JStr} (b : JStr) (h : c ∉ a) :
    idxOf? c (a ++ b) = (idxOf? c b).map (fun i => a.length + i) := by
  induction a with
  | nil =>
    simp only [List.nil_append, List.length_nil]
    cases idxOf? c b with
    | none => rfl
    | some i => simp
  | cons x xs ih =>
    have hx : ¬ x = c := by intro hc; subst hc; exact h (by simp)
    have hxs : c ∉ xs := fun hm => h (by simp [hm])
    rw [List.cons_append, idxOf?, if_neg hx, ih hxs]
    cases idxOf? c b with
    | none => rfl
    | some i =>
      simp [Option.map_map]
      omega

/-- The wrapped reply decomposes under trimming: with brace-free lead-in and
lead-out around an object serialization, trimming only trims the lead-in's
left edge and the lead-out's right edge. -/
theorem trimStr_wrap (pre post : JStr) (fs : List (JStr × JsonVal)) :
    trimStr (pre ++ serializeJson (.obj fs) ++ post) =
      trimL pre ++ serializeJson (.obj fs) ++ trimR post := by
  have hser := ser_obj_head fs
  have hserL := ser_obj_getLast fs
  unfold trimStr
  have h1 : trimL (pre ++ serializeJson (.obj fs) ++ post) =
      trimL pre ++ (serializeJson (.obj fs) ++ post) := by
    unfold trimL
    rw [List.append_assoc]
    apply dw_append
    apply dw_fix_of_head (a := '\x7b')
    · cases hs : serializeJson (.obj fs) with
      | nil => rw [hs] at hser; simp at hser
      | cons z zs =>
        rw [hs] at hser
        simp at hser
        simp [hser]
    · decide
  rw [h1, ← List.append_assoc]
  apply trimR_append
  · rw [List.getLast?_append, hserL]
    rfl
  · decide

theorem idxOf?_head_append {c : Char} {a : JStr} (b : JStr) (h : a.head? = some c) :
    idxOf? c (a ++ b) = some 0 := by
  apply idxOf?_head
  cases a with
  | nil => simp at h
  | cons z zs =>
    simp at h
    simp [h]

theorem extractJson_wrapped (fs : List (JStr × JsonVal)) (pre post : JStr)
    (hpre : '\x7b' ∉ pre) (hpost : '\x7d' ∉ post) :
    extractJson (pre ++ serializeJson (.obj fs) ++ post) = serializeJson (.obj fs) := by
  have hlen := ser_obj_len fs
  have hhead := ser_obj_head fs
  have hlast := ser_obj_getLast fs
  have hT := trimStr_wrap pre post fs
  have hPm : '\x7b' ∉ trimL pre :=
    fun hm => hpre (List.Sublist.mem hm (List.dropWhile_sublist isWs))
  have hQpre : trimR post <+: post :=
    ⟨(post.reverse.takeWhile isWs).reverse, (trimR_decomp post).symm⟩
  have hQm : '\x7d' ∉ trimR post := fun hm => hpost (List.Sublist.mem hm hQpre.sublist)
  have hi : idxOf? '\x7b' (trimStr (pre ++ serializeJson (.obj fs) ++ post))
      = some (trimL pre).length := by
    rw [hT, List.append_assoc, idxOf?_append_not_mem _ hPm,
      idxOf?_head_append (trimR post) hhead]
    simp
  have hrev : (trimStr (pre ++ serializeJson (.obj fs) ++ post)).reverse
      = (trimR post).reverse
        ++ ((serializeJson (.obj fs)).reverse ++ (trimL pre).reverse) := by
    rw [hT, List.reverse_append, List.reverse_append]
  have hserR : (serializeJson (.obj fs)).reverse.head? = some '\x7d' := by
    rw [List.head?_reverse]; exact hlast
  have hQmr : '\x7d' ∉ (trimR post).reverse := by simpa using hQm
  have hjr : idxOf? '\x7d' (trimStr (pre ++ serializeJson (.obj fs) ++ post)).reverse
      = some (trimR post).length := by
    rw [hrev, idxOf?_append_not_mem _ hQmr,
      idxOf?_head_append (trimL pre).reverse hserR]
    simp
  have hlenT : (trimStr (pre ++ serializeJson (.obj fs) ++ post)).length
      = (trimL pre).length + (serializeJson (.obj fs)).length + (trimR post).length := by
    rw [hT]
    simp [List.length_append]
    omega
  have hj : lastIdxOf? '\x7d' (trimStr (pre ++ serializeJson (.obj fs) ++ post))
      = some ((trimL pre).length + (serializeJson (.obj fs)).length - 1) := by
    unfold lastIdxOf?
    rw [hjr, hlenT]
    simp
    omega
  have hij : (trimL pre).length
      < (trimL pre).length + (serializeJson (.obj fs)).length - 1 := by omega
  rw [ej_branch_lt hi hj hij]
  have hsub : subStr (trimStr (pre ++ serializeJson (.obj fs) ++ post))
      (trimL pre).length
      ((trimL pre).length + (serializeJson (.obj fs)).length - 1 + 1)
      = serializeJson (.obj fs) := by
    unfold subStr
    rw [hT, List.append_assoc, List.drop_left]
    have harith : (trimL pre).length + (serializeJson (.obj fs)).length - 1 + 1
        - (trimL pre).length = (serializeJson (.obj fs)).length := by omega
    rw [harith]
    exact List.take_left _ _
  rw [hsub]
  exact trim_fix_of_ends hhead (by decide) hlast (by decide)

/-- Claim C3: for every JSON object, the relay's best-effort extraction
applied to a reply of brace-free leading prose and fence, the serialization
of the object, and a brace-free closing fence and trailing prose yields
exactly the same string — hence, under any `JSON.parse` behaviour, the same
parsed object — as the extraction applied to the clean, unwrapped
serialization; and when the parser round-trips the serialization, the
wrapped reply parses back to the object. -/
theorem C3_fenced_extraction (jparse : JParse) (fs : List (JStr × JsonVal))
    (pre post : JStr) (hpre : '\x7b' ∉ pre) (hpost : '\x7d' ∉ post) :
    extractJson (pre ++ serializeJson (.obj fs) ++ post)
        = extractJson (serializeJson (.obj fs))
    ∧ jparse (extractJson (pre ++ serializeJson (.obj fs) ++ post))
        = jparse (extractJson (serializeJson (.obj fs)))
    ∧ (jparse (serializeJson (.obj fs)) = .ok (.obj fs) →
        jparse (extractJson (pre ++ serializeJson (.obj fs) ++ post))
          = .ok (.obj fs)) := by
  have hclean : extractJson (serializeJson (.obj fs)) = serializeJson (.obj fs) :=
    extractJson_fix (ser_obj_head fs) (ser_obj_getLast fs) (ser_obj_len fs)
  have hwrap := extractJson_wrapped fs pre post hpre hpost
  refine ⟨by rw [hwrap, hclean], by rw [hwrap, hclean], ?_⟩
  intro hrt
  rw [hwrap]
  exact hrt

/-- A concrete JSON object used to witness the fenced-extraction claim. -/
def c3Obj : JsonVal := .obj [(js "data", JsonVal.arr [])]

/-- A concrete `JSON.parse` behaviour that round-trips `c3Obj`. -/
def c3Parse : JParse :=
  fun s => if s = serializeJson c3Obj then .ok c3Obj else .error (js "Unexpected token")

/-- Witness for claim C3 at a concrete fenced reply. -/
theorem C3_fenced_extraction_witness :
    '\x7b' ∉ js "Sure! Here is the data:\n```json\n"
    ∧ '\x7d' ∉ js "\n```\nThat is all."
    ∧ c3Parse (extractJson (js "Sure! Here is the data:\n```json\n"
        ++ serializeJson (.obj [(js "data", JsonVal.arr [])])
        ++ js "\n```\nThat is all.")) = .ok (.obj [(js "data", JsonVal.arr [])]) := by
  refine ⟨by decide, by decide, ?_⟩
  exact (C3_fenced_extraction c3Parse [(js "data", JsonVal.arr [])]
    (js "Sure! Here is the data:\n```json\n") (js "\n```\nThat is all.")
    (by decide) (by decide)).2.2 (by simp [c3Parse, c3Obj])

/-- Claim C6: sorting a `FetchResult`'s data array ascending by the parsed
date of each record's month (the comparator
`(a, b) => new Date(a.month).getTime() - new Date(b.month).getTime()`,
with `dateOf` the runtime's date parsing) is idempotent: sorting twice
yields the same sequence as sorting once. -/
theorem C6_sort_idempotent {ν : Type} (dateOf : JStr → Int)
    (rows : List (DataRow ν)) :
    sortData dateOf (sortData dateOf rows) = sortData dateOf rows := by
  unfold sortData
  haveI : IsTotal (DataRow ν) (fun a b => dateOf a.month ≤ dateOf b.month) :=
    ⟨fun a b => Int.le_total (dateOf a.month) (dateOf b.month)⟩
  haveI : IsTrans (DataRow ν) (fun a b => dateOf a.month ≤ dateOf b.month) :=
    ⟨fun _ _ _ hab hbc => le_trans hab hbc⟩
  exact List.Sorted.insertionSort_eq
    (List.sorted_insertionSort (fun a b => dateOf a.month ≤ dateOf b.month) rows)

/-- Claim C1: when the server-side credential is not configured (absent or
empty, i.e. falsy), the relay fails immediately with the distinctly-labeled
configuration error — the very marker the client formatter special-cases —
and the outbound-call trace is empty, for every parser behaviour, every
model transport and every requested indicator list. -/
theorem C1_missing_key (jparse : JParse) (apiKey : Option JStr)
    (model : JStr → ModelResponse) (indicators : Option (List IndicatorKey))
    (hk : truthyS apiKey = false) :
    getEconomicData jparse apiKey model indicators = (.error configErrMsg, [])
    ∧ markerTest configErrMsg = true := by
  constructor
  · unfold getEconomicData
    rw [hk]
    rfl
  · decide

/-- Witness for claim C1 at the absent credential and a concrete request. -/
theorem C1_missing_key_witness :
    truthyS none = false
    ∧ getEconomicData (fun _ => .error []) none
        (fun _ => { candidates := none, text := [] }) (some [IndicatorKey.gdpGrowth])
        = (.error configErrMsg, [])
    ∧ markerTest configErrMsg = true := by
  refine ⟨by decide, ?_, ?_⟩
  · exact (C1_missing_key (fun _ => .error []) none
      (fun _ => { candidates := none, text := [] })
      (some [IndicatorKey.gdpGrowth]) (by decide)).1
  · exact (C1_missing_key (fun _ => .error []) none
      (fun _ => { candidates := none, text := [] })
      (some [IndicatorKey.gdpGrowth]) (by decide)).2

theorem getEconomicData_call (jparse : JParse) (apiKey : Option JStr)
    (model : JStr → ModelResponse) (i : IndicatorKey) (rest : List IndicatorKey)
    (hk : truthyS apiKey = true) :
    getEconomicData jparse apiKey model (some (i :: rest)) =
      (match jparse (extractJson (model (createDynamicPrompt (i :: rest))).text) with
       | .error em => (.error (parseFailMsg em), [createDynamicPrompt (i :: rest)])
       | .ok parsedResult =>
         if truthyJ parsedResult && isArr (getField parsedResult (js "data")) then
           (.ok { data := arrOf (getField parsedResult (js "data")),
                  sources := responseSources (model (createDynamicPrompt (i :: rest))) },
            [createDynamicPrompt (i :: rest)])
         else (.error (parseFailMsg badFormatMsg), [createDynamicPrompt (i :: rest)])) := by
  unfold getEconomicData
  rw [hk]
  rfl

/-- Claim C2: given a relay reply whose raw text yields no parseable JSON
(the parser errors with message `em` on the extracted substring), the relay
fails with the parse-error wrapper whose message includes the parser's
message, and the client-visible error message is non-empty. -/
theorem C2_parse_error (jparse : JParse) (apiKey : Option JStr)
    (model : JStr → ModelResponse) (inds : List IndicatorKey) (em : JStr)
    (hk : truthyS apiKey = true) (hne : inds ≠ [])
    (hp : jparse (extractJson (model (createDynamicPrompt inds)).text) = .error em) :
    (getEconomicData jparse apiKey model (some inds)).1 = .error (parseFailMsg em)
    ∧ em <:+: parseFailMsg em
    ∧ parseFailMsg em ≠ [] := by
  cases inds with
  | nil => exact absurd rfl hne
  | cons i rest =>
    rw [getEconomicData_call jparse apiKey model i rest hk, hp]
    refine ⟨rfl, ?_, ?_⟩
    · exact ⟨js "Failed to parse JSON from the AI's response. Details: ", [],
        by simp [parseFailMsg]⟩
    · intro h
      rw [parseFailMsg] at h
      cases hjs : js "Failed to parse JSON from the AI's response. Details: " with
      | nil => exact absurd hjs (by decide)
      | cons c cs => rw [hjs] at h; simp at h

/-- Witness for claim C2 at a concrete unparseable reply. -/
theorem C2_parse_error_witness :
    truthyS (some (js "k")) = true
    ∧ ([IndicatorKey.gdpGrowth] : List IndicatorKey) ≠ []
    ∧ (getEconomicData (fun _ => .error (js "Unexpected token o in JSON at position 0"))
        (some (js "k"))
        (fun _ => { candidates := none, text := js "I could not find the data, sorry!" })
        (some [IndicatorKey.gdpGrowth])).1
      = .error (parseFailMsg (js "Unexpected token o in JSON at position 0")) := by
  refine ⟨by decide, by simp, ?_⟩
  exact (C2_parse_error (fun _ => .error (js "Unexpected token o in JSON at position 0"))
    (some (js "k"))
    (fun _ => { candidates := none, text := js "I could not find the data, sorry!" })
    [IndicatorKey.gdpGrowth] (js "Unexpected token o in JSON at position 0")
    (by decide) (by simp) rfl).1

/-- Counterexample to claim C10 as stated: when the server credential is
absent, an invocation with an empty requested-indicators list does not
return the empty `FetchResult` — the configuration error is raised first. -/
theorem C10_counterexample :
    (getEconomicData (fun _ => .error []) none
        (fun _ => { candidates := none, text := [] }) (some [])).1
      = .error configErrMsg
    ∧ (.error configErrMsg : Except JStr FetchResult)
        ≠ .ok { data := [], sources := [] } := by
  refine ⟨rfl, ?_⟩
  intro h
  exact Except.noConfusion h

/-- Claim C10 (amended): provided the server credential is configured, an
invocation with a missing or empty requested-indicators list returns the
empty `FetchResult` with an empty outbound-call trace — no prompt is built
and no model call is made. -/
theorem C10_empty_indicators (jparse : JParse) (apiKey : Option JStr)
    (model : JStr → ModelResponse) (hk : truthyS apiKey = true) :
    getEconomicData jparse apiKey model none = (.ok { data := [], sources := [] }, [])
    ∧ getEconomicData jparse apiKey model (some [])
        = (.ok { data := [], sources := [] }, []) := by
  constructor
  · unfold getEconomicData
    rw [hk]
    rfl
  · unfold getEconomicData
    rw [hk]
    rfl

/-- Witness for the amended claim C10 at a concrete configured credential. -/
theorem C10_empty_indicators_witness :
    truthyS (some (js "k")) = true
    ∧ getEconomicData (fun _ => .error []) (some (js "k"))
        (fun _ => { candidates := none, text := [] }) (some [])
        = (.ok { data := [], sources := [] }, []) :=
  ⟨by decide, (C10_empty_indicators (fun _ => .error []) (some (js "k"))
      (fun _ => { candidates := none, text := [] }) (by decide)).2⟩

/-- The source record a chunk contributes when its web part carries a truthy
uri and a truthy title; `none` for every other chunk. -/
def keptSource (c : GroundChunk) : Option Source :=
  match c.web with
  | some w =>
    if truthyS w.uri && truthyS w.title then
      some { title := w.title.getD [], uri := w.uri.getD [] }
    else none
  | none => none

/-- The kept chunks' source records, in encounter order. -/
def keptList (chunks : List GroundChunk) : List Source := chunks.filterMap keptSource

/-- The last kept source record carrying uri `u`, if any. -/
def lastKept (chunks : List GroundChunk) (u : JStr) : Option Source :=
  ((keptList chunks).filter (fun s => decide (s.uri = u))).getLast?

/-- Lookup of the value stored under key `u` in the association-list model of
the uri-keyed `Map`. -/
def lookupVal (m : List (JStr × Source)) (u : JStr) : Option Source :=
  (m.find? (fun p => decide (p.1 = u))).map Prod.snd

theorem insertChunk_eq (m : List (JStr × Source)) (c : GroundChunk) :
    insertChunk m c = match keptSource c with
      | some s => mapSet m s.uri s
      | none => m := by
  unfold insertChunk keptSource
  cases c.web with
  | none => rfl
  | some w =>
    cases hb : (truthyS w.uri && truthyS w.title) with
    | true => simp [hb]
    | false => simp [hb]

theorem mapSet_any_iff (m : List (JStr × Source)) (k : JStr) :
    m.any (fun p => decide (p.1 = k)) = true ↔ k ∈ m.map Prod.fst := by
  rw [List.any_eq_true]
  constructor
  · rintro ⟨p, hp, hpk⟩
    simp at hpk
    exact List.mem_map.mpr ⟨p, hp, hpk⟩
  · intro hk
    obtain ⟨p, hp, hpk⟩ := List.mem_map.mp hk
    exact ⟨p, hp, by simp [hpk]⟩

theorem mapSet_keys_mem {m : List (JStr × Source)} {k : JStr} (v : Source)
    (h : k ∈ m.map Prod.fst) :
    (mapSet m k v).map Prod.fst = m.map Prod.fst := by
  unfold mapSet
  rw [if_pos ((mapSet_any_iff m k).mpr h)]
  rw [List.map_map]
  apply List.map_congr_left
  intro p hp
  by_cases hpk : p.1 = k
  · simp [hpk]
  · simp [hpk]

theorem mapSet_keys_not_mem {m : List (JStr × Source)} {k : JStr} (v : Source)
    (h : k ∉ m.map Prod.fst) :
    (mapSet m k v).map Prod.fst = m.map Prod.fst ++ [k] := by
  unfold mapSet
  rw [if_neg (fun hc => h ((mapSet_any_iff m k).mp hc))]
  simp

theorem mapSet_keys_mem_iff (m : List (JStr × Source)) (k u : JStr) (v : Source) :
    u ∈ (mapSet m k v).map Prod.fst ↔ u ∈ m.map Prod.fst ∨ u = k := by
  by_cases h : k ∈ m.map Prod.fst
  · rw [mapSet_keys_mem v h]
    constructor
    · exact Or.inl
    · rintro (hu | hu)
      · exact hu
      · rw [hu]; exact h
  · rw [mapSet_keys_not_mem v h]
    simp [List.mem_append]

theorem mapSet_keys_nodup {m : List (JStr × Source)} (k : JStr) (v : Source)
    (h : (m.map Prod.fst).Nodup) : ((mapSet m k v).map Prod.fst).Nodup := by
  by_cases hk : k ∈ m.map Prod.fst
  · rw [mapSet_keys_mem v hk]; exact h
  · rw [mapSet_keys_not_mem v hk]
    rw [List.nodup_append]
    refine ⟨h, List.nodup_singleton k, ?_⟩
    intro x hx hy
    simp at hy
    subst hy
    exact hk hx

theorem find?_map_update (m : List (JStr × Source)) (k : JStr) (v : Source)
    (hk : k ∈ m.map Prod.fst) :
    (m.map (fun p => if p.1 = k then (k, v) else p)).find?
        (fun p => decide (p.1 = k)) = some (k, v) := by
  induction m with
  | nil => simp at hk
  | cons p rest ih =>
    rw [List.map_cons]
    by_cases hpk : p.1 = k
    · rw [if_pos hpk]
      exact List.find?_cons_of_pos _ (by simp)
    · rw [if_neg hpk]
      rw [List.find?_cons_of_neg _ (by simp [hpk])]
      apply ih
      rw [List.map_cons] at hk
      rcases List.mem_cons.mp hk with h | h
      · exact absurd h.symm hpk
      · exact h

theorem find?_append_none {p : (JStr × Source) → Bool} {m : List (JStr × Source)}
    (h : m.find? p = none) (l : List (JStr × Source)) :
    (m ++ l).find? p = l.find? p := by
  induction m with
  | nil => rfl
  | cons q rest ih =>
    rw [List.find?_eq_none] at h
    have hq : ¬ p q = true := h q (by simp)
    rw [List.cons_append, List.find?_cons_of_neg _ hq]
    apply ih
    rw [List.find?_eq_none]
    intro x hx
    exact h x (by simp [hx])

theorem lookupVal_mapSet_self (m : List (JStr × Source)) (k : JStr) (v : Source) :
    lookupVal (mapSet m k v) k = some v := by
  unfold mapSet lookupVal
  by_cases h : m.any (fun p => decide (p.1 = k)) = true
  · rw [if_pos h, find?_map_update m k v ((mapSet_any_iff m k).mp h)]
    rfl
  · rw [if_neg h]
    have hk : k ∉ m.map Prod.fst := fun hc => h ((mapSet_any_iff m k).mpr hc)
    have hfm : m.find? (fun p => decide (p.1 = k)) = none := by
      rw [List.find?_eq_none]
      intro p hp
      simp
      intro hc
      exact hk (List.mem_map.mpr ⟨p, hp, hc⟩)
    rw [find?_append_none hfm]
    rw [List.find?_cons_of_pos _ (by simp)]
    rfl

theorem find?_append_single_ne (m : List (JStr × Source)) (k u : JStr) (v : Source)
    (hne : u ≠ k) :
    (m ++ [(k, v)]).find? (fun p => decide (p.1 = u))
      = m.find? (fun p => decide (p.1 = u)) := by
  induction m with
  | nil =>
    rw [List.nil_append,
      List.find?_cons_of_neg _ (by simp; exact fun hc => hne hc.symm)]
  | cons p rest ih =>
    by_cases hpu : p.1 = u
    · rw [List.cons_append, List.find?_cons_of_pos _ (by simp [hpu]),
        List.find?_cons_of_pos _ (by simp [hpu])]
    · rw [List.cons_append, List.find?_cons_of_neg _ (by simp [hpu]),
        List.find?_cons_of_neg _ (by simp [hpu])]
      exact ih

theorem lookupVal_mapSet_ne (m : List (JStr × Source)) (k u : JStr) (v : Source)
    (hne : u ≠ k) : lookupVal (mapSet m k v) u = lookupVal m u := by
  unfold mapSet lookupVal
  by_cases h : m.any (fun p => decide (p.1 = k)) = true
  · rw [if_pos h]
    clear h
    induction m with
    | nil => rfl
    | cons p rest ih =>
      rw [List.map_cons]
      by_cases hpu : p.1 = u
      · have hpk : ¬ p.1 = k := by rw [hpu]; exact hne
        rw [if_neg hpk]
        rw [List.find?_cons_of_pos _ (by simp [hpu]),
          List.find?_cons_of_pos _ (by simp [hpu])]
      · by_cases hpk : p.1 = k
        · rw [if_pos hpk]
          rw [List.find?_cons_of_neg _ (by simp; exact fun hc => hne hc.symm),
            List.find?_cons_of_neg _ (by simp [hpu])]
          exact ih
        · rw [if_neg hpk]
          rw [List.find?_cons_of_neg _ (by simp [hpu]),
            List.find?_cons_of_neg _ (by simp [hpu])]
          exact ih
  · rw [if_neg h]
    rw [find?_append_single_ne m k u v hne]

theorem lastKept_nil (u : JStr) : lastKept [] u = none := rfl

theorem lastKept_cons (c : GroundChunk) (rest : List GroundChunk) (u : JStr) :
    lastKept (c :: rest) u
      = (lastKept rest u).or
          (match keptSource c with
           | some s => if s.uri = u then some s else none
           | none => none) := by
  unfold lastKept keptList
  rw [List.filterMap_cons]
  cases hc : keptSource c with
  | none => simp
  | some s =>
    by_cases hsu : s.uri = u
    · rw [List.filter_cons, if_pos (by simp [hsu])]
      rw [show s :: List.filter (fun t => decide (t.uri = u)) (rest.filterMap keptSource)
            = [s] ++ List.filter (fun t => decide (t.uri = u)) (rest.filterMap keptSource)
          from rfl]
      rw [List.getLast?_append]
      simp [hsu]
    · rw [List.filter_cons, if_neg (by simp [hsu])]
      simp [hsu]

theorem foldl_insert_lookup (chunks : List GroundChunk) :
    ∀ (m : List (JStr × Source)) (u : JStr),
    lookupVal (chunks.foldl insertChunk m) u
      = match lastKept chunks u with
        | some s => some s
        | none => lookupVal m u := by
  induction chunks with
  | nil =>
    intro m u
    rw [lastKept_nil]
    rfl
  | cons c rest ih =>
    intro m u
    rw [List.foldl_cons, ih, lastKept_cons]
    cases hr : lastKept rest u with
    | some s => rfl
    | none =>
      rw [Option.none_or]
      rw [insertChunk_eq]
      cases hc : keptSource c with
      | none => rfl
      | some s =>
        by_cases hsu : s.uri = u
        · show lookupVal (mapSet m s.uri s) u
            = match (if s.uri = u then some s else none : Option Source) with
              | some t => some t
              | none => lookupVal m u
          rw [if_pos hsu, ← hsu]
          exact lookupVal_mapSet_self m s.uri s
        · show lookupVal (mapSet m s.uri s) u
            = match (if s.uri = u then some s else none : Option Source) with
              | some t => some t
              | none => lookupVal m u
          rw [if_neg hsu]
          exact lookupVal_mapSet_ne m s.uri u s (fun hc2 => hsu hc2.symm)

theorem foldl_insert_keys (chunks : List GroundChunk) :
    ∀ (m : List (JStr × Source)) (u : JStr),
    u ∈ (chunks.foldl insertChunk m).map Prod.fst
      ↔ u ∈ m.map Prod.fst ∨ u ∈ (keptList chunks).map (fun s => s.uri) := by
  induction chunks with
  | nil =>
    intro m u
    simp [keptList]
  | cons c rest ih =>
    intro m u
    rw [List.foldl_cons, ih]
    unfold keptList
    rw [List.filterMap_cons, insertChunk_eq]
    cases hc : keptSource c with
    | none => rfl
    | some s =>
      rw [mapSet_keys_mem_iff]
      rw [List.map_cons, List.mem_cons]
      constructor
      · rintro ((hu | hu) | hu)
        · exact Or.inl hu
        · exact Or.inr (Or.inl hu)
        · exact Or.inr (Or.inr hu)
      · rintro (hu | hu | hu)
        · exact Or.inl (Or.inl hu)
        · exact Or.inl (Or.inr hu)
        · exact Or.inr hu

theorem foldl_insert_nodup (chunks : List GroundChunk) :
    ∀ m : List (JStr × Source), (m.map Prod.fst).Nodup →
      ((chunks.foldl insertChunk m).map Prod.fst).Nodup := by
  induction chunks with
  | nil => exact fun m h => h
  | cons c rest ih =>
    intro m h
    rw [List.foldl_cons]
    apply ih
    rw [insertChunk_eq]
    cases keptSource c with
    | none => exact h
    | some s => exact mapSet_keys_nodup s.uri s h

theorem mapSet_keyuri {m : List (JStr × Source)} (k : JStr) (v : Source)
    (hv : v.uri = k) (h : ∀ p ∈ m, p.1 = p.2.uri) :
    ∀ p ∈ mapSet m k v, p.1 = p.2.uri := by
  intro p hp
  unfold mapSet at hp
  by_cases ha : m.any (fun q => decide (q.1 = k)) = true
  · rw [if_pos ha] at hp
    obtain ⟨q, hq, hqe⟩ := List.mem_map.mp hp
    by_cases hqk : q.1 = k
    · rw [if_pos hqk] at hqe
      rw [← hqe]
      exact hv.symm
    · rw [if_neg hqk] at hqe
      rw [← hqe]
      exact h q hq
  · rw [if_neg ha] at hp
    rcases List.mem_append.mp hp with hq | hq
    · exact h p hq
    · simp at hq
      rw [hq]
      exact hv.symm

theorem foldl_insert_keyuri (chunks : List GroundChunk) :
    ∀ m : List (JStr × Source), (∀ p ∈ m, p.1 = p.2.uri) →
      ∀ p ∈ chunks.foldl insertChunk m, p.1 = p.2.uri := by
  induction chunks with
  | nil => exact fun m h => h
  | cons c rest ih =>
    intro m h
    rw [List.foldl_cons]
    apply ih
    rw [insertChunk_eq]
    cases keptSource c with
    | none => exact h
    | some s => exact mapSet_keyuri s.uri s rfl h

theorem find?_key_of_mem {m : List (JStr × Source)} {p : JStr × Source}
    (hnd : (m.map Prod.fst).Nodup) (hp : p ∈ m) :
    m.find? (fun q => decide (q.1 = p.1)) = some p := by
  induction m with
  | nil => simp at hp
  | cons q rest ih =>
    rw [List.map_cons, List.nodup_cons] at hnd
    rcases List.mem_cons.mp hp with hpq | hpr
    · subst hpq
      exact List.find?_cons_of_pos _ (by simp)
    · have hq : ¬ q.1 = p.1 := by
        intro hc
        apply hnd.1
        rw [hc]
        exact List.mem_map.mpr ⟨p, hpr, rfl⟩
      rw [List.find?_cons_of_neg _ (by simp [hq])]
      exact ih hnd.2 hpr

theorem mem_values_iff_lookup {m : List (JStr × Source)}
    (hnd : (m.map Prod.fst).Nodup) (hku : ∀ p ∈ m, p.1 = p.2.uri) (s : Source) :
    s ∈ m.map Prod.snd ↔ lookupVal m s.uri = some s := by
  constructor
  · intro hs
    obtain ⟨p, hp, hpe⟩ := List.mem_map.mp hs
    have hkey : p.1 = s.uri := by rw [hku p hp, hpe]
    unfold lookupVal
    rw [← hkey, find?_key_of_mem hnd hp]
    rw [Option.map_some']
    rw [hpe]
  · intro h
    unfold lookupVal at h
    cases hf : m.find? (fun p => decide (p.1 = s.uri)) with
    | none => rw [hf] at h; simp at h
    | some q =>
      rw [hf] at h
      rw [Option.map_some'] at h
      injection h with h2
      exact List.mem_map.mpr ⟨q, List.mem_of_find?_eq_some hf, h2⟩

/-- Claim C4: the grounding-source extraction keeps only chunks with both a
(truthy) title and uri; the result has exactly one entry per distinct uri
(its uris are duplicate-free and are exactly the kept chunks' uris), with
the last-encountered kept chunk for a uri determining the entry; on the
concrete two-chunk input sharing uri `https://bsp.gov.ph` the result is the
single entry titled by the later chunk; and absent grounding metadata
yields an empty sources list, not an error. -/
theorem C4_source_dedup (chunks : List GroundChunk) :
    ((extractSources chunks).map (fun s => s.uri)).Nodup
    ∧ (∀ u : JStr, u ∈ (extractSources chunks).map (fun s => s.uri)
        ↔ u ∈ (keptList chunks).map (fun s => s.uri))
    ∧ (∀ s ∈ extractSources chunks, lastKept chunks s.uri = some s)
    ∧ extractSources
        [⟨some ⟨some (js "BSP"), some (js "https://bsp.gov.ph")⟩⟩,
         ⟨some ⟨some (js "BSP Dup"), some (js "https://bsp.gov.ph")⟩⟩]
        = [⟨js "BSP Dup", js "https://bsp.gov.ph"⟩]
    ∧ (∀ r : ModelResponse, groundingChunksOf r = none → responseSources r = []) := by
  have hnd : ((chunks.foldl insertChunk []).map Prod.fst).Nodup :=
    foldl_insert_nodup chunks [] (by simp)
  have hku : ∀ p ∈ chunks.foldl insertChunk [], p.1 = p.2.uri :=
    foldl_insert_keyuri chunks [] (by simp)
  have hmapeq : (extractSources chunks).map (fun s => s.uri)
      = (chunks.foldl insertChunk []).map Prod.fst := by
    unfold extractSources
    rw [List.map_map]
    apply List.map_congr_left
    intro p hp
    exact (hku p hp).symm
  refine ⟨?_, ?_, ?_, ?_, ?_⟩
  · rw [hmapeq]
    exact hnd
  · intro u
    rw [hmapeq, foldl_insert_keys chunks [] u]
    simp
  · intro s hs
    have hl : lookupVal (chunks.foldl insertChunk []) s.uri = some s :=
      (mem_values_iff_lookup hnd hku s).mp hs
    rw [foldl_insert_lookup chunks [] s.uri] at hl
    cases hk : lastKept chunks s.uri with
    | some t =>
      rw [hk] at hl
      exact hl
    | none =>
      rw [hk] at hl
      simp [lookupVal] at hl
  · decide
  · intro r hr
    unfold responseSources
    rw [hr]

/-- Witness for claim C4 at the concrete duplicated-uri chunks and at a
concrete response without grounding metadata. -/
theorem C4_source_dedup_witness :
    extractSources
        [⟨some ⟨some (js "BSP"), some (js "https://bsp.gov.ph")⟩⟩,
         ⟨some ⟨some (js "BSP Dup"), some (js "https://bsp.gov.ph")⟩⟩]
      = [⟨js "BSP Dup", js "https://bsp.gov.ph"⟩]
    ∧ responseSources { candidates := none, text := [] } = [] :=
  ⟨(C4_source_dedup []).2.2.2.1,
   (C4_source_dedup []).2.2.2.2 { candidates := none, text := [] } rfl⟩

theorem joinSep_nil (c : Char) : joinSep c [] = [] := by
  simp [joinSep, List.intercalate]

theorem joinSep_singleton (c : Char) (p : JStr) : joinSep c [p] = p := by
  simp [joinSep, List.intercalate]

theorem joinSep_cons2 (c : Char) (p q : JStr) (rest : List JStr) :
    joinSep c (p :: q :: rest) = p ++ [c] ++ joinSep c (q :: rest) := by
  simp [joinSep, List.intercalate, List.intersperse]

theorem splitOnChar_not_mem {c : Char} {p : JStr} (h : c ∉ p) :
    splitOnChar c p = [p] := by
  induction p with
  | nil => rfl
  | cons a as ih =>
    have ha : ¬ a = c := fun hc => h (by simp [hc])
    have has : c ∉ as := fun hm => h (by simp [hm])
    rw [splitOnChar, if_neg ha, ih has]

theorem splitOnChar_not_mem_append {c : Char} {p : JStr} (rest : JStr)
    (h : c ∉ p) : splitOnChar c (p ++ c :: rest) = p :: splitOnChar c rest := by
  induction p with
  | nil =>
    rw [List.nil_append, splitOnChar, if_pos rfl]
  | cons a as ih =>
    have ha : ¬ a = c := fun hc => h (by simp [hc])
    have has : c ∉ as := fun hm => h (by simp [hm])
    rw [List.cons_append, splitOnChar, if_neg ha, ih has]

theorem splitOnChar_joinSep (c : Char) (parts : List JStr) (hne : parts ≠ [])
    (hcl : ∀ p ∈ parts, c ∉ p) :
    splitOnChar c (joinSep c parts) = parts := by
  induction parts with
  | nil => exact absurd rfl hne
  | cons p rest ih =>
    cases rest with
    | nil =>
      rw [joinSep_singleton]
      exact splitOnChar_not_mem (hcl p (by simp))
    | cons q rest' =>
      rw [joinSep_cons2, List.append_assoc, List.singleton_append]
      rw [splitOnChar_not_mem_append _ (hcl p (by simp))]
      rw [ih (by simp) (fun x hx => hcl x (List.mem_cons_of_mem p hx))]

theorem not_mem_joinSep {d c : Char} (hdc : d ≠ c) (parts : List JStr)
    (h : ∀ p ∈ parts, d ∉ p) : d ∉ joinSep c parts := by
  induction parts with
  | nil => rw [joinSep_nil]; simp
  | cons p rest ih =>
    cases rest with
    | nil =>
      rw [joinSep_singleton]
      exact h p (by simp)
    | cons q rest' =>
      rw [joinSep_cons2]
      intro hmem
      rcases List.mem_append.mp hmem with hm1 | hm2
      · rcases List.mem_append.mp hm1 with hm3 | hm4
        · exact h p (by simp) hm3
        · simp at hm4
          exact hdc hm4
      · exact ih (fun x hx => h x (List.mem_cons_of_mem p hx)) hm2

theorem not_mem_quoteF {d : Char} {s : JStr} (hd : d ≠ '"') (hs : d ∉ s) :
    d ∉ quoteF s := by
  unfold quoteF
  intro hmem
  rcases List.mem_cons.mp hmem with h | h
  · exact hd h
  · rcases List.mem_append.mp h with h1 | h2
    · exact hs h1
    · simp at h2
      exact hd h2

theorem catalogName_clean (k : IndicatorKey) :
    ',' ∉ js (INDICATORS_MAP k).name ∧ '\n' ∉ js (INDICATORS_MAP k).name := by
  cases k <;> exact ⟨by decide, by decide⟩

/-- Claim C5: for every non-empty selection and every loaded data set (whose
month labels and rendered values are free of the separator characters, as
the dates and numbers produced here are), the CSV export's first line
splits on commas into `Month` followed by exactly the selected indicators'
double-quoted display names in selection order, and each data line splits
into the double-quoted month followed by, per selected indicator in the
same order, the rendered numeric value or the empty string when the value
is null or absent. -/
theorem C5_csv_export {ν : Type} (render : ν → JStr) (selected : List IndicatorKey)
    (rows : List (DataRow ν)) (_hsel : selected ≠ [])
    (hm : ∀ r ∈ rows, ',' ∉ r.month ∧ '\n' ∉ r.month)
    (hv : ∀ r ∈ rows, ∀ k : IndicatorKey, ∀ v, r.vals k = some v →
        ',' ∉ render v ∧ '\n' ∉ render v) :
    splitOnChar '\n' (csvContent render selected rows)
        = csvHeader selected :: rows.map (csvRow render selected)
    ∧ splitOnChar ',' (csvHeader selected)
        = js "Month" :: selected.map (fun k => quoteF (js (INDICATORS_MAP k).name))
    ∧ ∀ r ∈ rows, splitOnChar ',' (csvRow render selected r)
        = quoteF r.month
          :: selected.map (fun k => match r.vals k with
               | some v => render v
               | none => []) := by
  have hhdrC : ∀ p ∈ js "Month"
      :: selected.map (fun k => quoteF (js (INDICATORS_MAP k).name)), ',' ∉ p := by
    intro p hp
    rcases List.mem_cons.mp hp with h | h
    · subst h; decide
    · obtain ⟨k, _, hke⟩ := List.mem_map.mp h
      rw [← hke]
      exact not_mem_quoteF (by decide) (catalogName_clean k).1
  have hhdrN : ∀ p ∈ js "Month"
      :: selected.map (fun k => quoteF (js (INDICATORS_MAP k).name)), '\n' ∉ p := by
    intro p hp
    rcases List.mem_cons.mp hp with h | h
    · subst h; decide
    · obtain ⟨k, _, hke⟩ := List.mem_map.mp h
      rw [← hke]
      exact not_mem_quoteF (by decide) (catalogName_clean k).2
  have hrowC : ∀ r ∈ rows, ∀ p ∈ quoteF r.month
      :: selected.map (fun k => match r.vals k with
           | some v => render v
           | none => []), ',' ∉ p := by
    intro r hr p hp
    rcases List.mem_cons.mp hp with h | h
    · rw [h]
      exact not_mem_quoteF (by decide) (hm r hr).1
    · obtain ⟨k, _, hke⟩ := List.mem_map.mp h
      rw [← hke]
      cases hrv : r.vals k with
      | some v => exact (hv r hr k v hrv).1
      | none => simp
  have hrowN : ∀ r ∈ rows, ∀ p ∈ quoteF r.month
      :: selected.map (fun k => match r.vals k with
           | some v => render v
           | none => []), '\n' ∉ p := by
    intro r hr p hp
    rcases List.mem_cons.mp hp with h | h
    · rw [h]
      exact not_mem_quoteF (by decide) (hm r hr).2
    · obtain ⟨k, _, hke⟩ := List.mem_map.mp h
      rw [← hke]
      cases hrv : r.vals k with
      | some v => exact (hv r hr k v hrv).2
      | none => simp
  have hsplitHdr : splitOnChar ',' (csvHeader selected)
      = js "Month" :: selected.map (fun k => quoteF (js (INDICATORS_MAP k).name)) := by
    unfold csvHeader
    exact splitOnChar_joinSep ',' _ (by simp) hhdrC
  have hsplitRow : ∀ r ∈ rows, splitOnChar ',' (csvRow render selected r)
      = quoteF r.month :: selected.map (fun k => match r.vals k with
          | some v => render v
          | none => []) := by
    intro r hr
    unfold csvRow
    exact splitOnChar_joinSep ',' _ (by simp) (hrowC r hr)
  have hsplitLines : splitOnChar '\n' (csvContent render selected rows)
      = csvHeader selected :: rows.map (csvRow render selected) := by
    unfold csvContent
    apply splitOnChar_joinSep '\n' _ (by simp)
    intro p hp
    rcases List.mem_cons.mp hp with h | h
    · rw [h]
      unfold csvHeader
      exact not_mem_joinSep (by decide) _ hhdrN
    · obtain ⟨r, hr, hre⟩ := List.mem_map.mp h
      rw [← hre]
      unfold csvRow
      exact not_mem_joinSep (by decide) _ (hrowN r hr)
  exact ⟨hsplitLines, hsplitHdr, hsplitRow⟩

/-- A concrete loaded row used to witness the CSV-export claim. -/
def c5Row : DataRow Int :=
  { month := js "2025-01",
    vals := fun k => if k = IndicatorKey.gdpGrowth then some 5 else none }

/-- Witness for claim C5 at a concrete selection, row and value rendering. -/
theorem C5_csv_export_witness :
    ([IndicatorKey.gdpGrowth, IndicatorKey.inflationRate] : List IndicatorKey) ≠ []
    ∧ splitOnChar ','
        (csvHeader [IndicatorKey.gdpGrowth, IndicatorKey.inflationRate])
      = js "Month" :: [IndicatorKey.gdpGrowth, IndicatorKey.inflationRate].map
          (fun k => quoteF (js (INDICATORS_MAP k).name))
    ∧ splitOnChar ','
        (csvRow (fun _ : Int => js "5.7")
          [IndicatorKey.gdpGrowth, IndicatorKey.inflationRate] c5Row)
      = quoteF c5Row.month
        :: [IndicatorKey.gdpGrowth, IndicatorKey.inflationRate].map
            (fun k => match c5Row.vals k with
              | some _ => js "5.7"
              | none => []) := by
  have h := C5_csv_export (fun _ : Int => js "5.7")
    [IndicatorKey.gdpGrowth, IndicatorKey.inflationRate] [c5Row]
    (by simp)
    (by
      intro r hr
      simp at hr
      subst hr
      exact ⟨by decide, by decide⟩)
    (by
      intro r hr k v hrv
      refine ⟨?_, ?_⟩
      · show ',' ∉ js "5.7"
        decide
      · show '\n' ∉ js "5.7"
        decide)
  exact ⟨by simp, h.2.1, h.2.2 c5Row (by simp)⟩

theorem isPrefL_append_self (p r : JStr) : isPrefL p (p ++ r) = true := by
  induction p with
  | nil => rfl
  | cons a as ih =>
    rw [List.cons_append, isPrefL]
    simp [ih]

theorem isPrefL_ne_nil {p m : JStr} (hp : p ≠ []) (h : isPrefL p m = true) :
    m ≠ [] := by
  intro hm
  subst hm
  cases p with
  | nil => exact hp rfl
  | cons a as => simp [isPrefL] at h

theorem isPrefL_serverBase (st : Nat) (stx X : JStr) :
    isPrefL (js "Server responded with ") (serverMsgBase st stx ++ X) = true := by
  unfold serverMsgBase
  simp only [List.append_assoc]
  exact isPrefL_append_self _ _

theorem isPrefL_serverBase' (st : Nat) (stx : JStr) :
    isPrefL (js "Server responded with ") (serverMsgBase st stx) = true := by
  unfold serverMsgBase
  simp only [List.append_assoc]
  exact isPrefL_append_self _ _

theorem serverMsg_shape (jparse : JParse) (st : Nat) (stx body : JStr) :
    isPrefL (js "Server responded with ") (serverMsg jparse st stx body) = true := by
  unfold serverMsg
  cases hb : jparse body with
  | ok ej =>
    show isPrefL (js "Server responded with ")
      (match getField ej (js "message") with
       | some v =>
         if truthyJ v then serverMsgBase st stx ++ js " Details: " ++ jshow v
         else serverMsgBase st stx
       | none => serverMsgBase st stx) = true
    cases getField ej (js "message") with
    | some v =>
      show isPrefL (js "Server responded with ")
        (if truthyJ v then serverMsgBase st stx ++ js " Details: " ++ jshow v
         else serverMsgBase st stx) = true
      by_cases htv : truthyJ v = true
      · rw [if_pos htv, List.append_assoc]
        exact isPrefL_serverBase st stx _
      · rw [if_neg htv]
        exact isPrefL_serverBase' st stx
    | none => exact isPrefL_serverBase' st stx
  | error e =>
    show isPrefL (js "Server responded with ")
      (if !body.isEmpty then serverMsgBase st stx ++ js " Response: " ++ body.take 100
       else serverMsgBase st stx) = true
    by_cases hbe : (!body.isEmpty) = true
    · rw [if_pos hbe, List.append_assoc]
      exact isPrefL_serverBase st stx _
    · rw [if_neg hbe]
      exact isPrefL_serverBase' st stx

theorem fetch_ok_parsed (jparse : JParse) (st : Nat) (stx body : JStr)
    (j : JsonVal) (hb : jparse body = .ok j) :
    fetchEconomicData jparse (.resp true st stx body)
      = if truthyJ j && isArr (getField j (js "data"))
            && isArr (getField j (js "sources"))
        then .ok j else .error (.malformed, malformedMsg) := by
  unfold fetchEconomicData
  show (match jparse body with
    | Except.error em =>
      (Except.error (FetchCause.bodyParse, em) : Except (FetchCause × JStr) JsonVal)
    | Except.ok result =>
      if truthyJ result && isArr (getField result (js "data"))
          && isArr (getField result (js "sources")) then Except.ok result
      else Except.error (FetchCause.malformed, malformedMsg))
    = if truthyJ j && isArr (getField j (js "data"))
          && isArr (getField j (js "sources"))
      then Except.ok j else Except.error (FetchCause.malformed, malformedMsg)
  rw [hb]

/-- Claim C7: the client fetch returns the parsed 2xx body exactly when it is
truthy with array-typed `data` and `sources`; otherwise it fails with the
fixed malformed-payload error; a non-2xx response fails with a
server-reported message carrying the fixed status-line lead; a rejected
fetch fails with the fixed connectivity message; the three failure kinds
carry distinct cause labels and mutually distinguishable, non-empty
message strings. -/
theorem C7_fetch_validation (jparse : JParse) (t : Transport) :
    (∀ st stx body j, t = .resp true st stx body → jparse body = .ok j →
        (truthyJ j && isArr (getField j (js "data"))
          && isArr (getField j (js "sources"))) = true →
        fetchEconomicData jparse t = .ok j)
    ∧ (∀ st stx body j, t = .resp true st stx body → jparse body = .ok j →
        (truthyJ j && isArr (getField j (js "data"))
          && isArr (getField j (js "sources"))) = false →
        fetchEconomicData jparse t = .error (.malformed, malformedMsg))
    ∧ (∀ st stx body, t = .resp false st stx body →
        fetchEconomicData jparse t
            = .error (.serverReported, serverMsg jparse st stx body)
          ∧ isPrefL (js "Server responded with ") (serverMsg jparse st stx body) = true
          ∧ serverMsg jparse st stx body ≠ [])
    ∧ (∀ m, t = .typeError m →
        fetchEconomicData jparse t = .error (.connectivity, connectivityMsg))
    ∧ malformedMsg ≠ connectivityMsg
    ∧ isPrefL (js "Server responded with ") malformedMsg = false
    ∧ isPrefL (js "Server responded with ") connectivityMsg = false
    ∧ malformedMsg ≠ [] ∧ connectivityMsg ≠ [] := by
  refine ⟨?_, ?_, ?_, ?_, by decide, by decide, by decide, by decide, by decide⟩
  · intro st stx body j ht hb hcond
    subst ht
    rw [fetch_ok_parsed jparse st stx body j hb, if_pos hcond]
  · intro st stx body j ht hb hcond
    subst ht
    rw [fetch_ok_parsed jparse st stx body j hb,
      if_neg (by rw [hcond]; exact Bool.false_ne_true)]
  · intro st stx body ht
    subst ht
    refine ⟨rfl, serverMsg_shape jparse st stx body, ?_⟩
    exact isPrefL_ne_nil (by decide) (serverMsg_shape jparse st stx body)
  · intro m ht
    subst ht
    rfl

/-- The well-formed relay body used to witness the fetch-validation claim. -/
def c7Good : JsonVal := .obj [(js "data", .arr []), (js "sources", .arr [])]

/-- A concrete `JSON.parse` behaviour for the fetch-validation witness:
`good` parses to the well-formed body, everything else to a bare object. -/
def c7Parse : JParse :=
  fun s => if s = js "good" then .ok c7Good else .ok (.obj [])

/-- Witness for claim C7 at concrete 2xx, malformed-2xx and rejected-fetch
transports. -/
theorem C7_fetch_validation_witness :
    fetchEconomicData c7Parse (.resp true 200 (js "OK") (js "good")) = .ok c7Good
    ∧ fetchEconomicData c7Parse (.resp true 200 (js "OK") (js "bad"))
        = .error (.malformed, malformedMsg)
    ∧ fetchEconomicData c7Parse (.typeError (js "Failed to fetch"))
        = .error (.connectivity, connectivityMsg) := by
  have hgood : c7Parse (js "good") = .ok c7Good := by
    show (if js "good" = js "good" then (Except.ok c7Good : Except JStr JsonVal)
      else .ok (.obj [])) = .ok c7Good
    rw [if_pos rfl]
  have hbad : c7Parse (js "bad") = .ok (.obj []) := by
    show (if js "bad" = js "good" then (Except.ok c7Good : Except JStr JsonVal)
      else .ok (.obj [])) = .ok (.obj [])
    rw [if_neg (by decide)]
  refine ⟨?_, ?_, ?_⟩
  · exact (C7_fetch_validation c7Parse (.resp true 200 (js "OK") (js "good"))).1
      200 (js "OK") (js "good") c7Good rfl hgood (by decide)
  · exact (C7_fetch_validation c7Parse (.resp true 200 (js "OK") (js "bad"))).2.1
      200 (js "OK") (js "bad") (.obj []) rfl hbad (by decide)
  · exact (C7_fetch_validation c7Parse (.typeError (js "Failed to fetch"))).2.2.2.1
      (js "Failed to fetch") rfl

theorem pickField_truthy {v w : JsonVal} (h : pickField v = some w) :
    truthyJ w = true := by
  unfold pickField at h
  by_cases h1 : truthyO ((getField v (js "error")).bind fun e => getField e (js "message")) = true
  · rw [if_pos h1] at h
    rw [h] at h1
    exact h1
  · rw [if_neg h1] at h
    by_cases h2 : truthyO (getField v (js "details")) = true
    · rw [if_pos h2] at h
      rw [h] at h2
      exact h2
    · rw [if_neg h2] at h
      by_cases h3 : truthyO (getField v (js "message")) = true
      · rw [if_pos h3] at h
        rw [h] at h3
        exact h3
      · rw [if_neg h3] at h
        exact absurd h (by simp)

theorem embeddedMessage_ne_nil {jparse : JParse} {e m : JStr}
    (h : embeddedMessage jparse e = some m) : m ≠ [] := by
  unfold embeddedMessage at h
  cases hbm : braceMatch e with
  | none =>
    rw [hbm] at h
    exact Option.noConfusion h
  | some mstr =>
    rw [hbm] at h
    have h1 : (match jparse mstr with
      | Except.error _ => (none : Option JStr)
      | Except.ok errorObj =>
        match pickField errorObj with
        | some (.str s) => some s
        | _ => none) = some m := h
    cases hp : jparse mstr with
    | error a =>
      rw [hp] at h1
      exact Option.noConfusion h1
    | ok obj =>
      rw [hp] at h1
      have h2 : (match pickField obj with
        | some (.str s) => (some s : Option JStr)
        | _ => none) = some m := h1
      cases hpf : pickField obj with
      | none =>
        rw [hpf] at h2
        exact Option.noConfusion h2
      | some w =>
        rw [hpf] at h2
        have ht := pickField_truthy hpf
        cases w with
        | null => exact Option.noConfusion h2
        | bool b => exact Option.noConfusion h2
        | num n => exact Option.noConfusion h2
        | arr xs => exact Option.noConfusion h2
        | obj fs => exact Option.noConfusion h2
        | str s =>
          injection h2 with h4
          subst h4
          intro hc
          subst hc
          simp [truthyJ] at ht

theorem gfem_some (jparse : JParse) (e : JStr) (hie : e.isEmpty = false) :
    getFriendlyErrorMessage jparse (some e)
      = if markerTest e then configFriendly
        else
          match embeddedMessage jparse e with
          | some m => { title := js "Error Fetching Data", message := m, isHtml := false }
          | none => { title := js "Error Fetching Data", message := e, isHtml := false } := by
  unfold getFriendlyErrorMessage
  show (if e.isEmpty then unknownFriendly
    else if markerTest e then configFriendly
    else
      match embeddedMessage jparse e with
      | some m => { title := js "Error Fetching Data", message := m, isHtml := false }
      | none => { title := js "Error Fetching Data", message := e, isHtml := false })
    = if markerTest e then configFriendly
      else
        match embeddedMessage jparse e with
        | some m => { title := js "Error Fetching Data", message := m, isHtml := false }
        | none => { title := js "Error Fetching Data", message := e, isHtml := false }
  rw [if_neg (by rw [hie]; exact Bool.false_ne_true)]

/-- Counterexample to claim C8 as stated: the empty raw error string matches
neither the configuration marker nor an embedded JSON object, so the claim
requires it to be displayed verbatim (hence empty), but the formatter
substitutes the fixed non-empty default message instead. -/
theorem C8_counterexample :
    markerTest [] = false
    ∧ embeddedMessage (fun _ => .error []) [] = none
    ∧ (getFriendlyErrorMessage (fun _ => .error []) (some [])).message ≠ [] := by
  exact ⟨by decide, rfl, by decide⟩

/-- Claim C8 (amended): for every non-empty raw error string the formatter
first checks the fixed configuration-error marker case-insensitively and,
on a match, renders the setup-instructions message; otherwise, when an
embedded JSON object yields a truthy string `error.message`/`details`/
`message` field, it displays that field's value; otherwise it displays the
raw string verbatim; the displayed message is non-empty in every branch,
with a null or empty input mapped to a fixed non-empty default message
rather than the empty verbatim string. -/
theorem C8_error_formatting (jparse : JParse) (e : JStr) (hne : e ≠ []) :
    (markerTest e = true → getFriendlyErrorMessage jparse (some e) = configFriendly)
    ∧ (∀ m, markerTest e = false → embeddedMessage jparse e = some m →
        getFriendlyErrorMessage jparse (some e)
          = { title := js "Error Fetching Data", message := m, isHtml := false })
    ∧ (markerTest e = false → embeddedMessage jparse e = none →
        getFriendlyErrorMessage jparse (some e)
          = { title := js "Error Fetching Data", message := e, isHtml := false })
    ∧ (getFriendlyErrorMessage jparse (some e)).message ≠ []
    ∧ (getFriendlyErrorMessage jparse none).message ≠ [] := by
  have hie : e.isEmpty = false := by
    cases e with
    | nil => exact absurd rfl hne
    | cons a as => rfl
  refine ⟨?_, ?_, ?_, ?_, ?_⟩
  · intro h
    rw [gfem_some jparse e hie, if_pos h]
  · intro m h hm
    rw [gfem_some jparse e hie, if_neg (by rw [h]; exact Bool.false_ne_true), hm]
  · intro h hm
    rw [gfem_some jparse e hie, if_neg (by rw [h]; exact Bool.false_ne_true), hm]
  · rw [gfem_some jparse e hie]
    by_cases h : markerTest e = true
    · rw [if_pos h]
      decide
    · rw [if_neg h]
      cases hm : embeddedMessage jparse e with
      | some m => exact embeddedMessage_ne_nil hm
      | none => exact hne
  · show unknownFriendly.message ≠ []
    decide

/-- Witness for the amended claim C8 at a concrete plain error string. -/
theorem C8_error_formatting_witness :
    js "boom" ≠ []
    ∧ markerTest (js "boom") = false
    ∧ embeddedMessage (fun _ => .error []) (js "boom") = none
    ∧ getFriendlyErrorMessage (fun _ => .error []) (some (js "boom"))
        = { title := js "Error Fetching Data", message := js "boom", isHtml := false } := by
  refine ⟨by decide, by decide, rfl, ?_⟩
  exact (C8_error_formatting (fun _ => .error []) (js "boom")
    (by decide)).2.2.1 (by decide) rfl
